import Mathlib

/-
Verification development for the stackhpc/naming-things-is-hard utilities.

The repository consists of three command-line scripts that shell out to an
external version-control tool.  We shallowly embed their pure cores:

* os-cherry-pop.py : parsing git log output into commit records
  (list_commits), matching by Gerrit Change-Id (find_commit), and the
  cherry-pick proposal pass (cherry_pop).
* os-downstream-tag.py : the downstream tag computation
  (most_recent_downstream_tag and the new-tag arithmetic in main), and the
  control flow of main over an abstract git world.
* os-upstream-sync.py : the control flow of main over an abstract git world.

Subprocess calls that can fail (rev-parse, merge-base, describe) are modelled
as Option-valued oracles supplied by a world record; a raised
CalledProcessError is the none case and leads to a nonzero exit.  Mutating
git operations (tag, push, branch, checkout, merge, commit) are recorded as
actions in the result; their own subprocess failures are not modelled, since
no property below depends on them.
-/

set_option maxHeartbeats 1000000

namespace NamingThings

/-- Commit message parsing constant COMMIT_ID from os-cherry-pop.py. -/
def COMMIT_ID : String := "commit "

/-- Commit message parsing constant AUTHOR from os-cherry-pop.py. -/
def AUTHOR : String := "Author:"

/-- Commit message parsing constant CHANGE_ID from os-cherry-pop.py. -/
def CHANGE_ID : String := "    Change-Id: I"

/-- Commit message parsing constant TITLE from os-cherry-pop.py. -/
def TITLE : String := "    "

/-- Python str.startswith, over the characters of the strings. -/
def pyStartsWith (s p : String) : Bool :=
  s.data.take p.data.length == p.data

/-- Python slicing s[n:] (n a character count). -/
def pyDrop (s : String) (n : Nat) : String :=
  ⟨s.data.drop n⟩

/-- Python slicing s[:n] (n a character count). -/
def pyTake (s : String) (n : Nat) : String :=
  ⟨s.data.take n⟩

/-- Python len() of a string. -/
def pyLen (s : String) : Nat :=
  s.data.length

/-- Splitting a character list at every separator character, keeping empty pieces,
as Python str.split(sep) does. -/
def splitChars (p : Char → Bool) : List Char → List (List Char)
  | [] => [[]]
  | c :: cs =>
    if p c then [] :: splitChars p cs
    else
      match splitChars p cs with
      | [] => [[c]]
      | g :: gs => (c :: g) :: gs

/-- Python str.split() with no arguments: split on whitespace, dropping empty pieces. -/
def pySplit (s : String) : List String :=
  ((splitChars Char.isWhitespace s.data).map (fun cs => String.mk cs)).filter (fun t => t ≠ "")

/-- Python truthiness test `not x` for an optional string: true for None and for the empty string. -/
def pyFalsy : Option String → Bool
  | none => true
  | some s => s = ""

/-- Python str() of an optional string, as used by print formatting: None prints as "None". -/
def pyStrOpt : Option String → String
  | none => "None"
  | some s => s

/-- In-memory record describing a single commit: the dict built in list_commits. -/
structure Commit where
  sha1 : String
  title : Option String
  change_id : Option String
  bot : Bool
deriving DecidableEq

/-- Loop state of list_commits: the pending record fields plus the commits list built so far. -/
structure PState where
  sha1 : Option String
  title : Option String
  change_id : Option String
  bot : Bool
  commits : List Commit
deriving DecidableEq

/-- The `if sha1:` flush in list_commits: append the pending record when a sha1 is pending.
A pending sha1 is always a nonempty split token, so Python truthiness is isSome here. -/
def flush (st : PState) : List Commit :=
  match st.sha1 with
  | some s => st.commits ++ [⟨s, st.title, st.change_id, st.bot⟩]
  | none => st.commits

/-- One iteration of the line loop of list_commits.  The none result models the
IndexError raised by line.split()[1] on a malformed commit or author line. -/
def processLine (st : PState) (line : String) : Option PState :=
  if pyStartsWith line COMMIT_ID then
    match (pySplit line)[1]? with
    | some tok => some ⟨some tok, none, none, false, flush st⟩
    | none => none
  else if pyStartsWith line AUTHOR then
    match (pySplit line)[1]? with
    | some tok => some { st with bot := if tok = "stackhpc-ci" then true else st.bot }
    | none => none
  else if pyStartsWith line CHANGE_ID then
    some { st with change_id := some ("I" ++ pyDrop line (pyLen CHANGE_ID)) }
  else if pyStartsWith line TITLE && pyFalsy st.title then
    some { st with title := some (pyDrop line (pyLen TITLE)) }
  else
    some st

/-- Pure core of list_commits from os-cherry-pop.py: fold the line loop over the
lines of the git log output (difference.splitlines()) and flush the final record. -/
def parseLog (lines : List String) : Option (List Commit) :=
  (lines.foldlM processLine ⟨none, none, none, false, []⟩).map flush

/-- find_commit from os-cherry-pop.py: return the first commit of the list whose
change_id equals the target commit's change_id, and None when there is none. -/
def find_commit (commits : List Commit) (commit : Commit) : Option Commit :=
  commits.find? (fun c => c.change_id == commit.change_id)

/-- One element of the later_branch_commits argument of cherry_pop: a branch name
together with the commits of that branch that are not on the previous branch. -/
structure BranchCommits where
  branch : String
  commits : List Commit
deriving DecidableEq

/-- The later-branch scan of cherry_pop (the options/last_sha1 loop): collect
(branch, commit) options for the candidate, breaking out of the loop when the
same sha1 is found on two consecutive matching branches. -/
def collectOptions (cand : Commit) : List BranchCommits → Option String → List (String × Commit)
  | [], _ => []
  | bc :: rest, last =>
    match find_commit bc.commits cand with
    | some lc =>
      if some lc.sha1 = last then []
      else (bc.branch, lc) :: collectOptions cand rest (some lc.sha1)
    | none => collectOptions cand rest last

/-- The commit found on the earliest later branch containing a change_id match. -/
def firstLaterMatch (later : List BranchCommits) (cand : Commit) : Option Commit :=
  later.findSome? (fun bc => find_commit bc.commits cand)

/-- The body of the candidate loop of cherry_pop, with the prints dropped: the
commit appended to the cherries list for this candidate, or none when the
candidate is skipped.  Mirrors the if/elif/else chain of lines 137-171. -/
def propose (newBC : List Commit) (later : List BranchCommits) (cand : Commit) : Option Commit :=
  if cand.bot then none
  else if pyFalsy cand.change_id then some cand
  else
    match find_commit newBC cand with
    | some _ => none
    | none =>
      match collectOptions cand later none with
      | [] => some cand
      | opt :: _ => some opt.2

/-- The cherries list accumulated by the candidate loop of cherry_pop. -/
def cherry_pop (candidates newBC : List Commit) (later : List BranchCommits) : List Commit :=
  candidates.foldl
    (fun cherries cand =>
      match propose newBC later cand with
      | some c => cherries ++ [c]
      | none => cherries)
    []

/-- One line of the final report of cherry_pop: the proposed cherry-pick command. -/
def cherryLine (c : Commit) : String :=
  "git cherry-pick -x " ++ pyTake c.sha1 10 ++ "  # " ++ pyStrOpt c.title

/-- The final report of cherry_pop (lines 174-176): the proposed cherry-pick
commands, printed over reversed(cherries). -/
def proposedReport (cherries : List Commit) : List String :=
  cherries.reverse.map cherryLine

/-
Claim-side helpers for the parser (C3): the log lines split into per-commit
entries, and a one-entry reference parse, to be related to parseLog.
-/

/-- Splits log lines into entries: each entry is a line starting with "commit "
together with the following lines up to the next such line; lines before the
first commit line belong to no entry. -/
def splitEntries : List String → List (List String)
  | [] => []
  | l :: ls =>
    if pyStartsWith l COMMIT_ID then
      (l :: ls.takeWhile (fun x => !pyStartsWith x COMMIT_ID)) ::
        splitEntries (ls.dropWhile (fun x => !pyStartsWith x COMMIT_ID))
    else
      splitEntries ls
termination_by lines => lines.length
decreasing_by
  · simp only [List.length_cons]
    exact Nat.lt_succ_of_le (List.dropWhile_sublist _).length_le
  · simp

/-- Accumulator for parsing the body of a single entry: the non-sha1 fields. -/
structure EntryAcc where
  title : Option String
  change_id : Option String
  bot : Bool
deriving DecidableEq

/-- The action of one body line (a line not starting with "commit ") on the
pending title, change_id and bot fields, exactly as in processLine. -/
def entryStep (acc : EntryAcc) (line : String) : Option EntryAcc :=
  if pyStartsWith line AUTHOR then
    match (pySplit line)[1]? with
    | some tok => some { acc with bot := if tok = "stackhpc-ci" then true else acc.bot }
    | none => none
  else if pyStartsWith line CHANGE_ID then
    some { acc with change_id := some ("I" ++ pyDrop line (pyLen CHANGE_ID)) }
  else if pyStartsWith line TITLE && pyFalsy acc.title then
    some { acc with title := some (pyDrop line (pyLen TITLE)) }
  else
    some acc

/-- Reference parse of a single entry (its commit line followed by its body). -/
def parseEntry : List String → Option Commit
  | [] => none
  | cl :: body => do
    let tok ← (pySplit cl)[1]?
    let acc ← body.foldlM entryStep ⟨none, none, false⟩
    pure ⟨tok, acc.title, acc.change_id, acc.bot⟩

/-
Claim-side predicates for the outcomes of the cherry-pick proposal pass (C1).
-/

/-- A commit with a tracking identifier equal to the candidate's exists in the list. -/
def idMatchIn (cs : List Commit) (cand : Commit) : Prop :=
  ∃ i, cand.change_id = some i ∧ ∃ c ∈ cs, c.change_id = some i

/-- Outcome 1 of the claim: a commit with an equal tracking identifier exists
among the new branch's commits, and the candidate is skipped. -/
def OutcomeAlreadyMerged (newBC : List Commit) (later : List BranchCommits) (cand : Commit) : Prop :=
  idMatchIn newBC cand ∧ propose newBC later cand = none

/-- Outcome 2 of the claim: a commit with an equal tracking identifier exists on
some later branch, and the commit from the earliest such branch is proposed. -/
def OutcomeSuperseded (newBC : List Commit) (later : List BranchCommits) (cand : Commit) : Prop :=
  (∃ bc ∈ later, idMatchIn bc.commits cand) ∧
    (∃ c, firstLaterMatch later cand = some c ∧ propose newBC later cand = some c)

/-- Outcome 3 of the claim: the original candidate commit itself is proposed. -/
def OutcomeKept (newBC : List Commit) (later : List BranchCommits) (cand : Commit) : Prop :=
  propose newBC later cand = some cand

/-- Amended outcome 1: the candidate has a truthy tracking identifier, the new
branch has a change_id match, and the candidate is skipped. -/
def AmendedAlreadyMerged (newBC : List Commit) (later : List BranchCommits) (cand : Commit) : Prop :=
  pyFalsy cand.change_id = false ∧ (find_commit newBC cand).isSome ∧
    propose newBC later cand = none

/-- Amended outcome 2: the candidate has a truthy tracking identifier, the new
branch has no match, some later branch matches, and the match from the earliest
such branch is proposed. -/
def AmendedSuperseded (newBC : List Commit) (later : List BranchCommits) (cand : Commit) : Prop :=
  pyFalsy cand.change_id = false ∧ find_commit newBC cand = none ∧
    (∃ c, firstLaterMatch later cand = some c ∧ propose newBC later cand = some c)

/-- Amended outcome 3: the candidate has no truthy tracking identifier, or no
change_id match exists on the new branch or any later branch; the original
candidate itself is proposed. -/
def AmendedKept (newBC : List Commit) (later : List BranchCommits) (cand : Commit) : Prop :=
  (pyFalsy cand.change_id = true ∨
      (find_commit newBC cand = none ∧ firstLaterMatch later cand = none)) ∧
    propose newBC later cand = some cand

/-
Embedding of os-downstream-tag.py.
-/

/-- The last dot-separated component of a string: Python tag.split(".")[-1]. -/
def lastDotComponent (s : String) : String :=
  (((splitChars (fun c => c = '.') s.data).map (fun cs => String.mk cs)).getLast?).getD ""

/-- Python int(s, base=10) on a string of decimal digits. -/
def pyIntDigits (s : String) : Nat :=
  s.data.foldl (fun n c => n * 10 + (c.toNat - 48)) 0

/-- tag_patch_key from most_recent_downstream_tag: the integer patch number
taken from the last dot-separated component of the tag. -/
def tag_patch_key (tag : String) : Nat :=
  pyIntDigits (lastDotComponent tag)

/-- The anchored regular expression of most_recent_downstream_tag: the tag is
the escaped full px followed by a dot and one or more digits. -/
def patchPattern (px tag : String) : Bool :=
  pyStartsWith tag (px ++ ".") &&
    (pyDrop tag (pyLen px + 1) ≠ "" && (pyDrop tag (pyLen px + 1)).data.all Char.isDigit)

/-- most_recent_downstream_tag from os-downstream-tag.py, over the repository's
tag list: shell-glob the tags on px.*, filter them on the anchored pattern, and
return the head of the patch-key-descending stable sort, or None when no tag
matches.  The unused ref parameter of the Python function is dropped. -/
def most_recent_downstream_tag (tags : List String) (pfx0 upstream_tag : String) : Option String :=
  let px := pfx0 ++ upstream_tag
  let globbed := tags.filter (fun t => pyStartsWith t (px ++ "."))
  let matched := globbed.filter (fun t => patchPattern px t)
  if matched.isEmpty then none
  else some ((matched.mergeSort (fun a b => tag_patch_key b ≤ tag_patch_key a)).headI)

/-- The new-tag computation of main in os-downstream-tag.py (lines 137-153,
without the early return): patch number of the most recent downstream tag plus
one, or 1 when there is no downstream tag, formatted onto the full px. -/
def new_downstream_tag (tags : List String) (pfx0 upstream_tag : String) : String :=
  match most_recent_downstream_tag tags pfx0 upstream_tag with
  | some dt => pfx0 ++ upstream_tag ++ "." ++ toString (tag_patch_key dt + 1)
  | none => pfx0 ++ upstream_tag ++ "." ++ toString (1 : Nat)

/-- Claim-side quantity for C8: the numerically greatest patch suffix among a
list of tags (0 when the list is empty). -/
def greatestPatch (tags : List String) : Nat :=
  tags.foldl (fun m t => max m (tag_patch_key t)) 0

/-- An abstract git world for the tag and sync tools: oracles for the
subprocess queries.  A none result models a raised CalledProcessError. -/
structure GitWorld where
  rev_parse : String → Option String
  merge_base : String → String → Option String
  describe : String → Option String
  tags : List String

/-- Mutating git operations performed by os-downstream-tag.py. -/
inductive TagAction where
  | add (tag ref : String)
  | push (remote tag : String)
deriving DecidableEq

/-- Result of a tool run: exit 0 or nonzero, with the mutating actions performed. -/
inductive RunResult (α : Type) where
  | ok (actions : List α)
  | err (actions : List α)
deriving DecidableEq

/-- tag_exists from os-downstream-tag.py: git tag -l prints a line iff the tag exists. -/
def tag_exists (tags : List String) (tag : String) : Bool :=
  tags.contains tag

/-- The tail of main in os-downstream-tag.py (lines 153-161): check that the new
tag does not already exist, then add it and push it. -/
def finishTag (w : GitWorld) (new_tag downstream_ref downstream_remote : String) :
    RunResult TagAction :=
  if tag_exists w.tags new_tag then .err []
  else .ok [.add new_tag downstream_ref, .push downstream_remote new_tag]

/-- main of os-downstream-tag.py over an abstract git world.  Fetches are
queries and are not recorded; only tag creation and pushing are actions. -/
def dt_main (w : GitWorld) (release upstream_remote downstream_remote pfx0 : String) :
    RunResult TagAction :=
  let upstream_refs :=
    [upstream_remote ++ "/stable/" ++ release,
     upstream_remote ++ "/unmaintained/" ++ release,
     release ++ "-eol",
     release]
  match upstream_refs.findSome? w.rev_parse with
  | none => .err []
  | some upstream_ref =>
    match w.rev_parse (downstream_remote ++ "/" ++ ("stackhpc/" ++ release)) with
    | none => .err []
    | some downstream_ref =>
      match w.merge_base upstream_ref downstream_ref with
      | none => .err []
      | some merge_base_ref =>
        match w.describe merge_base_ref with
        | none => .err []
        | some upstream_tag =>
          match most_recent_downstream_tag w.tags pfx0 upstream_tag with
          | some downstream_tag =>
            match w.rev_parse downstream_tag with
            | none => .err []
            | some downstream_tag_ref =>
              if downstream_tag_ref = downstream_ref then .ok []
              else
                finishTag w
                  (pfx0 ++ upstream_tag ++ "." ++ toString (tag_patch_key downstream_tag + 1))
                  downstream_ref downstream_remote
          | none =>
            finishTag w (pfx0 ++ upstream_tag ++ "." ++ toString (1 : Nat))
              downstream_ref downstream_remote

/-
Embedding of os-upstream-sync.py.
-/

/-- An abstract git world for os-upstream-sync.py: whether the working tree has
uncommitted changes (git diff-index --quiet HEAD exits nonzero), plus the
subprocess query oracles. -/
structure SyncWorld where
  uncommitted : Bool
  rev_parse : String → Option String
  merge_base : String → String → Option String

/-- Mutating or listed operations performed by os-upstream-sync.py. -/
inductive SyncAction where
  | fetch (remote : String)
  | createBranch (branch ref : String) (force : Bool)
  | checkout (ref : String)
  | merge (ref message : String)
  | commit (message : String)
  | push (remote branch : String)
deriving DecidableEq

/-- main of os-upstream-sync.py over an abstract git world. -/
def sync_main (w : SyncWorld) (release upstream_remote downstream_remote : String)
    (branch0 : Option String) (cont force : Bool) (message0 : Option String) :
    RunResult SyncAction :=
  match w.rev_parse (upstream_remote ++ "/" ++ ("stable/" ++ release)) with
  | none => .err []
  | some upstream_ref =>
    match w.rev_parse (downstream_remote ++ "/" ++ ("stackhpc/" ++ release)) with
    | none => .err []
    | some downstream_ref =>
      let branch := if pyFalsy branch0 then "merge-upstream-" ++ release else branch0.getD ""
      let message :=
        if pyFalsy message0 then "Merge upstream stable/" ++ release else message0.getD ""
      if !cont then
        if w.uncommitted then .err []
        else
          let fetches : List SyncAction :=
            [.fetch upstream_remote, .fetch downstream_remote]
          match w.merge_base upstream_ref downstream_ref with
          | none => .err fetches
          | some merge_base_ref =>
            if merge_base_ref = upstream_ref then .ok fetches
            else
              .ok (fetches ++
                [.createBranch branch downstream_ref force, .checkout branch,
                 .merge upstream_ref message, .push downstream_remote branch])
      else
        if w.uncommitted then .ok [.commit message, .push downstream_remote branch]
        else .err []

/-
Helper lemmas.
-/

theorem collectOptions_mem (cand : Commit) (later : List BranchCommits) :
    ∀ (last : Option String) (opt : String × Commit),
      opt ∈ collectOptions cand later last →
      ∃ bc ∈ later, opt.1 = bc.branch ∧ opt.2 ∈ bc.commits := by
  induction later with
  | nil => intro last opt h; simp [collectOptions] at h
  | cons bc rest ih =>
    intro last opt h
    simp only [collectOptions] at h
    split at h
    · rename_i lc hf
      split at h
      · simp at h
      · rcases List.mem_cons.mp h with h1 | h2
        · subst h1
          exact ⟨bc, List.mem_cons_self bc rest, rfl, List.mem_of_find?_eq_some hf⟩
        · obtain ⟨bc', hbc', hh⟩ := ih _ _ h2
          exact ⟨bc', List.mem_cons_of_mem _ hbc', hh⟩
    · obtain ⟨bc', hbc', hh⟩ := ih _ _ h
      exact ⟨bc', List.mem_cons_of_mem _ hbc', hh⟩

theorem collectOptions_eq_nil (cand : Commit) (later : List BranchCommits)
    (h : firstLaterMatch later cand = none) :
    collectOptions cand later none = [] := by
  induction later with
  | nil => simp [collectOptions]
  | cons bc rest ih =>
    rw [firstLaterMatch, List.findSome?_cons] at h
    simp only [collectOptions]
    cases hf : find_commit bc.commits cand with
    | some lc => rw [hf] at h; exact absurd h (by simp)
    | none =>
      rw [hf] at h
      exact ih h

theorem collectOptions_head (cand : Commit) (later : List BranchCommits) (c : Commit)
    (h : firstLaterMatch later cand = some c) :
    ∃ br rest, collectOptions cand later none = (br, c) :: rest := by
  induction later with
  | nil => simp [firstLaterMatch] at h
  | cons bc rest ih =>
    rw [firstLaterMatch, List.findSome?_cons] at h
    cases hf : find_commit bc.commits cand with
    | some lc =>
      rw [hf] at h
      replace h : some lc = some c := h
      cases h
      refine ⟨bc.branch, collectOptions cand rest (some c.sha1), ?_⟩
      simp only [collectOptions, hf]
      rw [if_neg (by simp)]
    | none =>
      rw [hf] at h
      replace h : List.findSome? (fun bc => find_commit bc.commits cand) rest = some c := h
      simp only [collectOptions, hf]
      exact ih h

theorem propose_of_bot (newBC : List Commit) (later : List BranchCommits) (cand : Commit)
    (h : cand.bot = true) : propose newBC later cand = none := by
  simp [propose, h]

theorem propose_of_falsy (newBC : List Commit) (later : List BranchCommits) (cand : Commit)
    (hb : cand.bot = false) (h : pyFalsy cand.change_id = true) :
    propose newBC later cand = some cand := by
  simp [propose, hb, h]

theorem propose_of_new_match (newBC : List Commit) (later : List BranchCommits) (cand c : Commit)
    (hb : cand.bot = false) (h1 : pyFalsy cand.change_id = false)
    (h2 : find_commit newBC cand = some c) :
    propose newBC later cand = none := by
  simp [propose, hb, h1, h2]

theorem propose_of_later_match (newBC : List Commit) (later : List BranchCommits) (cand c : Commit)
    (hb : cand.bot = false) (h1 : pyFalsy cand.change_id = false)
    (h2 : find_commit newBC cand = none) (h3 : firstLaterMatch later cand = some c) :
    propose newBC later cand = some c := by
  obtain ⟨br, rest, hco⟩ := collectOptions_head cand later c h3
  simp [propose, hb, h1, h2, hco]

theorem propose_of_no_match (newBC : List Commit) (later : List BranchCommits) (cand : Commit)
    (hb : cand.bot = false) (h1 : pyFalsy cand.change_id = false)
    (h2 : find_commit newBC cand = none) (h3 : firstLaterMatch later cand = none) :
    propose newBC later cand = some cand := by
  simp [propose, hb, h1, h2, collectOptions_eq_nil cand later h3]

theorem propose_some_cases (newBC : List Commit) (later : List BranchCommits) (cand c : Commit)
    (h : propose newBC later cand = some c) :
    (c = cand ∧ cand.bot = false) ∨ ∃ bc ∈ later, c ∈ bc.commits := by
  by_cases hb : cand.bot
  · rw [propose_of_bot newBC later cand hb] at h
    exact absurd h (by simp)
  · rw [Bool.not_eq_true] at hb
    by_cases hf : pyFalsy cand.change_id
    · rw [propose_of_falsy newBC later cand hb hf] at h
      exact Or.inl ⟨(Option.some_inj.mp h).symm, hb⟩
    · rw [Bool.not_eq_true] at hf
      cases hn : find_commit newBC cand with
      | some d =>
        rw [propose_of_new_match newBC later cand d hb hf hn] at h
        exact absurd h (by simp)
      | none =>
        cases hl : firstLaterMatch later cand with
        | some d =>
          rw [propose_of_later_match newBC later cand d hb hf hn hl] at h
          cases h
          obtain ⟨br, rest, hco⟩ := collectOptions_head cand later c hl
          obtain ⟨bc, hbc, _, hmem⟩ :=
            collectOptions_mem cand later none (br, c) (by rw [hco]; exact List.mem_cons_self _ _)
          exact Or.inr ⟨bc, hbc, hmem⟩
        | none =>
          rw [propose_of_no_match newBC later cand hb hf hn hl] at h
          exact Or.inl ⟨(Option.some_inj.mp h).symm, hb⟩

theorem cherry_pop_eq_filterMap (candidates newBC : List Commit) (later : List BranchCommits) :
    cherry_pop candidates newBC later = candidates.filterMap (propose newBC later) := by
  suffices h : ∀ (cs : List Commit) (acc : List Commit),
      cs.foldl
        (fun cherries cand =>
          match propose newBC later cand with
          | some c => cherries ++ [c]
          | none => cherries) acc
        = acc ++ cs.filterMap (propose newBC later) by
    simpa using h candidates []
  intro cs
  induction cs with
  | nil => simp
  | cons cand rest ih =>
    intro acc
    simp only [List.foldl_cons, List.filterMap_cons]
    cases h : propose newBC later cand with
    | none => simp [ih]
    | some c => simp [ih]

/-
Claim C2: find_commit matches solely by change_id equality.
-/

/-- C2: find_commit returns the first element whose change_id equals the target's,
none when no element matches, and the match is driven by change_id alone: it is
invariant under replacing the target by one with an equal change_id and under any
rewriting of the list that preserves change_id (so sha1 and title play no role). -/
theorem find_commit_matches_by_change_id_only (l : List Commit) (t : Commit) :
    (find_commit l t = none ↔ ∀ c ∈ l, c.change_id ≠ t.change_id) ∧
    (∀ c, find_commit l t = some c → c.change_id = t.change_id ∧
      ∃ l₁ l₂, l = l₁ ++ c :: l₂ ∧ ∀ x ∈ l₁, x.change_id ≠ t.change_id) ∧
    (∀ t', t'.change_id = t.change_id → find_commit l t' = find_commit l t) ∧
    (∀ f : Commit → Commit, (∀ c, (f c).change_id = c.change_id) →
      find_commit (l.map f) t = (find_commit l t).map f) := by
  refine ⟨?_, ?_, ?_, ?_⟩
  · simp [find_commit, List.find?_eq_none]
  · intro c h
    rw [find_commit, List.find?_eq_some] at h
    obtain ⟨hc, l₁, l₂, hl, hl₁⟩ := h
    refine ⟨by simpa using hc, l₁, l₂, hl, ?_⟩
    intro x hx
    simpa using hl₁ x hx
  · intro t' ht
    simp only [find_commit, ht]
  · intro f hf
    have hp : ((fun c => c.change_id == t.change_id) ∘ f) =
        (fun c => c.change_id == t.change_id) := by
      funext c
      simp [Function.comp, hf]
    rw [find_commit, find_commit, List.find?_map, hp]

/-- Witness for C2 at a concrete input: changing the target's sha1, title and bot
fields while keeping its change_id does not change the match. -/
theorem find_commit_matches_by_change_id_only_witness :
    find_commit [⟨"a1", none, some "I1", false⟩] ⟨"x", none, some "I1", false⟩ =
      find_commit [⟨"a1", none, some "I1", false⟩] ⟨"y", some "u", some "I1", true⟩ :=
  (find_commit_matches_by_change_id_only
    [⟨"a1", none, some "I1", false⟩] ⟨"y", some "u", some "I1", true⟩).2.2.1
    ⟨"x", none, some "I1", false⟩ rfl

/-
Claim C7: commit records pass through the analysis unchanged.
-/

/-- C7: the pass never modifies or synthesizes records: find_commit returns an
element of its input list, and every proposed cherry is, verbatim, one of the
candidate records or one of the later-branch records. -/
theorem records_pass_through_unchanged (candidates newBC : List Commit)
    (later : List BranchCommits) :
    (∀ cand c, find_commit newBC cand = some c → c ∈ newBC) ∧
    (∀ c ∈ cherry_pop candidates newBC later,
      c ∈ candidates ∨ ∃ bc ∈ later, c ∈ bc.commits) := by
  constructor
  · intro cand c h
    exact List.mem_of_find?_eq_some h
  · intro c hc
    rw [cherry_pop_eq_filterMap] at hc
    obtain ⟨cand, hcand, hp⟩ := List.mem_filterMap.mp hc
    rcases propose_some_cases newBC later cand c hp with ⟨rfl, _⟩ | h
    · exact Or.inl hcand
    · exact Or.inr h

/-- Witness for C7 at a concrete input: the record found by find_commit is an
element of the searched list. -/
theorem records_pass_through_unchanged_witness :
    (⟨"a1", none, some "I1", false⟩ : Commit) ∈ [(⟨"a1", none, some "I1", false⟩ : Commit)] :=
  (records_pass_through_unchanged [] [⟨"a1", none, some "I1", false⟩] []).1
    ⟨"z", none, some "I1", false⟩ ⟨"a1", none, some "I1", false⟩ (by decide)

/-
Claim C1: outcomes of the cherry-pick proposal pass.
-/

/-- Taken as stated, C1 fails: for a bot-created candidate (here with a tracking
identifier and no match anywhere) none of the three outcomes holds, since the
candidate is skipped without any tracking-identifier match. -/
theorem cherry_outcomes_counterexample :
    ¬ (OutcomeAlreadyMerged [] [] ⟨"aaaa", some "t", some "Ia", true⟩ ∨
       OutcomeSuperseded [] [] ⟨"aaaa", some "t", some "Ia", true⟩ ∨
       OutcomeKept [] [] ⟨"aaaa", some "t", some "Ia", true⟩) := by
  intro h
  rcases h with h | h | h <;>
    simp [OutcomeAlreadyMerged, OutcomeSuperseded, OutcomeKept, idMatchIn, propose] at h

/-- C1 amended: for every candidate not created by the bot, exactly one of the
three outcomes holds, where the skip and supersede outcomes require a truthy
tracking identifier and the keep outcome covers candidates with no truthy
identifier or with no identifier match on the new branch or any later branch. -/
theorem cherry_outcomes_exactly_one (newBC : List Commit) (later : List BranchCommits)
    (cand : Commit) (hbot : cand.bot = false) :
    (AmendedAlreadyMerged newBC later cand ∨ AmendedSuperseded newBC later cand ∨
        AmendedKept newBC later cand) ∧
      ¬ (AmendedAlreadyMerged newBC later cand ∧ AmendedSuperseded newBC later cand) ∧
      ¬ (AmendedAlreadyMerged newBC later cand ∧ AmendedKept newBC later cand) ∧
      ¬ (AmendedSuperseded newBC later cand ∧ AmendedKept newBC later cand) := by
  refine ⟨?_, ?_, ?_, ?_⟩
  · by_cases hf : pyFalsy cand.change_id
    · exact Or.inr (Or.inr ⟨Or.inl hf, propose_of_falsy newBC later cand hbot hf⟩)
    · rw [Bool.not_eq_true] at hf
      cases hn : find_commit newBC cand with
      | some d =>
        exact Or.inl ⟨hf, by rw [hn]; rfl,
          propose_of_new_match newBC later cand d hbot hf hn⟩
      | none =>
        cases hl : firstLaterMatch later cand with
        | some d =>
          exact Or.inr (Or.inl ⟨hf, hn,
            d, hl, propose_of_later_match newBC later cand d hbot hf hn hl⟩)
        | none =>
          exact Or.inr (Or.inr ⟨Or.inr ⟨hn, hl⟩,
            propose_of_no_match newBC later cand hbot hf hn hl⟩)
  · rintro ⟨⟨_, h1, _⟩, ⟨_, h2, _⟩⟩
    rw [h2] at h1
    exact absurd h1 (by simp)
  · rintro ⟨⟨hA1, hA2, _⟩, hK1, _⟩
    rcases hK1 with hk | ⟨hk, _⟩
    · rw [hA1] at hk
      exact absurd hk (by simp)
    · rw [hk] at hA2
      exact absurd hA2 (by simp)
  · rintro ⟨⟨hS1, _, c, hS3, _⟩, hK1, _⟩
    rcases hK1 with hk | ⟨_, hk⟩
    · rw [hS1] at hk
      exact absurd hk (by simp)
    · rw [hk] at hS3
      exact absurd hS3 (by simp)

/-- Witness for the amended C1 at a concrete input: a non-bot candidate with no
tracking identifier falls under exactly the keep outcome. -/
theorem cherry_outcomes_exactly_one_witness :
    (AmendedAlreadyMerged [] [] ⟨"aaaa", some "t", none, false⟩ ∨
        AmendedSuperseded [] [] ⟨"aaaa", some "t", none, false⟩ ∨
        AmendedKept [] [] ⟨"aaaa", some "t", none, false⟩) ∧
      ¬ (AmendedAlreadyMerged [] [] ⟨"aaaa", some "t", none, false⟩ ∧
          AmendedSuperseded [] [] ⟨"aaaa", some "t", none, false⟩) ∧
      ¬ (AmendedAlreadyMerged [] [] ⟨"aaaa", some "t", none, false⟩ ∧
          AmendedKept [] [] ⟨"aaaa", some "t", none, false⟩) ∧
      ¬ (AmendedSuperseded [] [] ⟨"aaaa", some "t", none, false⟩ ∧
          AmendedKept [] [] ⟨"aaaa", some "t", none, false⟩) :=
  cherry_outcomes_exactly_one [] [] ⟨"aaaa", some "t", none, false⟩ rfl

/-
Claim C6: bot-flagged commits and the proposed cherry-picks.
-/

/-- Taken as stated, C6 fails: a bot-flagged commit taken from a later branch is
included in the proposed cherry-picks (the candidate loop checks only the
candidate's bot flag, not the chosen later-branch commit's). -/
theorem bot_cherry_counterexample :
    (⟨"e1e1", none, some "Ix", true⟩ : Commit) ∈
      cherry_pop [⟨"aaaa", some "t", some "Ix", false⟩] []
        [⟨"b1", [⟨"e1e1", none, some "Ix", true⟩]⟩] ∧
    (⟨"e1e1", none, some "Ix", true⟩ : Commit).bot = true := by
  decide

/-- C6 amended: no bot-flagged candidate is ever proposed (bot candidates are
always skipped); a bot-flagged commit can appear among the proposed cherries
only as a commit taken from a later branch's commit list. -/
theorem bot_candidates_never_proposed (candidates newBC : List Commit)
    (later : List BranchCommits) :
    (∀ cand ∈ candidates, cand.bot = true → propose newBC later cand = none) ∧
    (∀ c ∈ cherry_pop candidates newBC later, c.bot = true →
      ∃ bc ∈ later, c ∈ bc.commits) := by
  constructor
  · intro cand _ hb
    exact propose_of_bot newBC later cand hb
  · intro c hc hb
    rw [cherry_pop_eq_filterMap] at hc
    obtain ⟨cand, hcand, hp⟩ := List.mem_filterMap.mp hc
    rcases propose_some_cases newBC later cand c hp with ⟨rfl, hcb⟩ | h
    · simp [hcb] at hb
    · exact h

/-- Witness for the amended C6 at a concrete input: a bot candidate is skipped. -/
theorem bot_candidates_never_proposed_witness :
    propose [] [] ⟨"bbbb", none, some "Iy", true⟩ = none :=
  (bot_candidates_never_proposed [⟨"bbbb", none, some "Iy", true⟩] [] []).1
    ⟨"bbbb", none, some "Iy", true⟩ (List.mem_singleton.mpr rfl) rfl

/-
Claim C10: the final report prints the cherries in reverse accumulation order.
-/

/-- C10: the proposed-cherries report has one line per accumulated cherry and its
i-th line is the cherry-pick command of the cherry accumulated at position
length - 1 - i, i.e. the report runs over the accumulated list in reverse. -/
theorem report_reverses_accumulation (candidates newBC : List Commit)
    (later : List BranchCommits) :
    (proposedReport (cherry_pop candidates newBC later)).length =
      (cherry_pop candidates newBC later).length ∧
    ∀ i, i < (cherry_pop candidates newBC later).length →
      (proposedReport (cherry_pop candidates newBC later))[i]? =
        ((cherry_pop candidates newBC later)[
          (cherry_pop candidates newBC later).length - 1 - i]?).map cherryLine := by
  constructor
  · simp [proposedReport]
  · intro i h
    simp only [proposedReport, List.getElem?_map]
    rw [List.getElem?_reverse h]

/-- Witness for C10 at a concrete input: with two kept candidates, line 0 of the
report is the command for the cherry accumulated last. -/
theorem report_reverses_accumulation_witness :
    (proposedReport (cherry_pop
        [⟨"aaaa", some "t1", none, false⟩, ⟨"bbbb", some "t2", none, false⟩] [] []))[0]? =
      ((cherry_pop [⟨"aaaa", some "t1", none, false⟩, ⟨"bbbb", some "t2", none, false⟩] [] [])[
        (cherry_pop [⟨"aaaa", some "t1", none, false⟩, ⟨"bbbb", some "t2", none, false⟩]
          [] []).length - 1 - 0]?).map cherryLine :=
  (report_reverses_accumulation
    [⟨"aaaa", some "t1", none, false⟩, ⟨"bbbb", some "t2", none, false⟩] [] []).2 0 (by decide)

/-
Claim C8: the new downstream tag increments the numerically greatest patch suffix.
-/

theorem greatestPatch_aux (tags : List String) :
    ∀ a : Nat, tags.foldl (fun m t => max m (tag_patch_key t)) a =
      max a (greatestPatch tags) := by
  induction tags with
  | nil =>
    intro a
    simp [greatestPatch]
  | cons t ts ih =>
    intro a
    simp only [greatestPatch, List.foldl_cons] at *
    rw [ih (max a (tag_patch_key t)), ih (max 0 (tag_patch_key t))]
    omega

theorem le_greatestPatch (tags : List String) :
    ∀ t ∈ tags, tag_patch_key t ≤ greatestPatch tags := by
  induction tags with
  | nil => simp
  | cons x ts ih =>
    intro t ht
    rw [greatestPatch, List.foldl_cons, greatestPatch_aux]
    rcases List.mem_cons.mp ht with rfl | ht'
    · omega
    · have := ih t ht'
      omega

theorem greatestPatch_attained (tags : List String) (h : tags ≠ []) :
    ∃ t ∈ tags, tag_patch_key t = greatestPatch tags := by
  induction tags with
  | nil => exact absurd rfl h
  | cons x ts ih =>
    rw [greatestPatch, List.foldl_cons, greatestPatch_aux]
    by_cases hts : ts = []
    · subst hts
      exact ⟨x, List.mem_cons_self x [], by simp [greatestPatch]⟩
    · obtain ⟨t, ht, hkey⟩ := ih hts
      by_cases hcmp : greatestPatch ts ≤ tag_patch_key x
      · exact ⟨x, List.mem_cons_self x ts, by omega⟩
      · refine ⟨t, List.mem_cons_of_mem _ ht, ?_⟩
        omega

theorem head_mergeSort_key (l : List String) (h : l ≠ []) :
    tag_patch_key ((l.mergeSort (fun a b => tag_patch_key b ≤ tag_patch_key a)).headI) =
      greatestPatch l := by
  have hperm := List.mergeSort_perm l (fun a b => tag_patch_key b ≤ tag_patch_key a)
  have hsorted := @List.sorted_mergeSort String
    (fun a b => decide (tag_patch_key b ≤ tag_patch_key a))
    (by intro a b c h1 h2; simp only [decide_eq_true_eq] at *; omega)
    (by intro a b; simp only [Bool.or_eq_true, decide_eq_true_eq]; omega) l
  cases hs : l.mergeSort (fun a b => tag_patch_key b ≤ tag_patch_key a) with
  | nil =>
    rw [hs] at hperm
    exact absurd hperm.symm.eq_nil h
  | cons hd tl =>
    rw [hs] at hperm hsorted
    simp only [List.headI]
    have hhd : ∀ x ∈ tl, tag_patch_key x ≤ tag_patch_key hd := by
      intro x hx
      have := (List.pairwise_cons.mp hsorted).1 x hx
      simpa using this
    have hmem : hd ∈ l := hperm.mem_iff.mp (List.mem_cons_self hd tl)
    obtain ⟨t, htl, hkey⟩ := greatestPatch_attained l h
    have htmem : t ∈ hd :: tl := hperm.mem_iff.mpr htl
    have hle : greatestPatch l ≤ tag_patch_key hd := by
      rcases List.mem_cons.mp htmem with rfl | htl'
      · omega
      · have := hhd t htl'
        omega
    have hge := le_greatestPatch l hd hmem
    omega

theorem matched_filter_eq (tags : List String) (px : String) :
    (tags.filter (fun t => pyStartsWith t (px ++ "."))).filter (fun t => patchPattern px t) =
      tags.filter (fun t => patchPattern px t) := by
  rw [List.filter_filter]
  apply List.filter_congr
  intro t _
  cases h : pyStartsWith t (px ++ ".") with
  | true => simp [patchPattern, h]
  | false => simp [patchPattern, h]

/-- C8: the new downstream tag appends to the full px (downstream tag px plus
upstream tag) a dot and the successor of the numerically greatest base-10 patch
suffix among the existing tags that exactly match px.<digits>; with no matching
tag the greatest is 0 and the new tag ends in .1.  Integer comparison is used
throughout, so a .10 suffix exceeds .9. -/
theorem new_tag_increments_greatest_patch (tags : List String) (pfx0 upstream_tag : String) :
    new_downstream_tag tags pfx0 upstream_tag =
      pfx0 ++ upstream_tag ++ "." ++
        toString (greatestPatch
          (tags.filter (fun t => patchPattern (pfx0 ++ upstream_tag) t)) + 1) := by
  unfold new_downstream_tag most_recent_downstream_tag
  simp only [matched_filter_eq]
  by_cases hM : tags.filter (fun t => patchPattern (pfx0 ++ upstream_tag) t) = []
  · rw [hM]
    simp [greatestPatch]
  · rw [if_neg (by simpa using hM)]
    exact congrArg (fun n => pfx0 ++ upstream_tag ++ "." ++ toString (n + 1))
      (head_mergeSort_key _ hM)

/-
Claim C4: no upstream ref resolves, so the downstream-tag tool exits nonzero.
-/

/-- C4: when none of the four candidate upstream refs (stable branch,
unmaintained branch, eol tag, release tag) resolves, dt_main exits nonzero and
performs no tag addition or push. -/
theorem no_upstream_ref_exits_nonzero (w : GitWorld)
    (release upstream_remote downstream_remote pfx0 : String)
    (h1 : w.rev_parse (upstream_remote ++ "/stable/" ++ release) = none)
    (h2 : w.rev_parse (upstream_remote ++ "/unmaintained/" ++ release) = none)
    (h3 : w.rev_parse (release ++ "-eol") = none)
    (h4 : w.rev_parse release = none) :
    dt_main w release upstream_remote downstream_remote pfx0 = .err [] := by
  unfold dt_main
  simp only [List.findSome?_cons, h1, h2, h3, h4, List.findSome?_nil]

/-- Witness for C4 at a concrete world in which no ref resolves. -/
theorem no_upstream_ref_exits_nonzero_witness :
    dt_main ⟨fun _ => none, fun _ _ => none, fun _ => none, []⟩
      "wallaby" "origin" "stackhpc" "stackhpc/" = .err [] :=
  no_upstream_ref_exits_nonzero ⟨fun _ => none, fun _ _ => none, fun _ => none, []⟩
    "wallaby" "origin" "stackhpc" "stackhpc/" rfl rfl rfl rfl

/-
Claim C5: a dirty working tree aborts the upstream-sync tool before any action.
-/

/-- C5: without the continue flag and with uncommitted changes in the working
tree, sync_main exits nonzero having performed no fetch, branch creation,
checkout, merge, commit, or push. -/
theorem dirty_tree_aborts_before_actions (w : SyncWorld)
    (release upstream_remote downstream_remote : String) (branch0 : Option String)
    (force : Bool) (message0 : Option String) (hdirty : w.uncommitted = true) :
    sync_main w release upstream_remote downstream_remote branch0 false force message0 =
      .err [] := by
  unfold sync_main
  cases h1 : w.rev_parse (upstream_remote ++ "/" ++ ("stable/" ++ release)) with
  | none => rfl
  | some u =>
    cases h2 : w.rev_parse (downstream_remote ++ "/" ++ ("stackhpc/" ++ release)) with
    | none => rfl
    | some d => simp [hdirty]

/-- Witness for C5 at a concrete dirty world. -/
theorem dirty_tree_aborts_before_actions_witness :
    sync_main ⟨true, fun _ => some "x", fun _ _ => some "y"⟩
      "wallaby" "origin" "stackhpc" none false false none = .err [] :=
  dirty_tree_aborts_before_actions ⟨true, fun _ => some "x", fun _ _ => some "y"⟩
    "wallaby" "origin" "stackhpc" none false none rfl

/-
Claim C9: an already-tagged downstream head is a no-op for the tag tool.
-/

/-- C9: when every query succeeds and the most recent downstream tag resolves to
the same commit as the downstream branch head, dt_main returns successfully and
performs no tag addition or push. -/
theorem already_tagged_head_is_noop (w : GitWorld)
    (release upstream_remote downstream_remote pfx0 : String)
    (upstream_ref downstream_ref merge_base_ref upstream_tag downstream_tag : String)
    (h1 : ([upstream_remote ++ "/stable/" ++ release,
            upstream_remote ++ "/unmaintained/" ++ release,
            release ++ "-eol", release]).findSome? w.rev_parse = some upstream_ref)
    (h2 : w.rev_parse (downstream_remote ++ "/" ++ ("stackhpc/" ++ release)) =
      some downstream_ref)
    (h3 : w.merge_base upstream_ref downstream_ref = some merge_base_ref)
    (h4 : w.describe merge_base_ref = some upstream_tag)
    (h5 : most_recent_downstream_tag w.tags pfx0 upstream_tag = some downstream_tag)
    (h6 : w.rev_parse downstream_tag = some downstream_ref) :
    dt_main w release upstream_remote downstream_remote pfx0 = .ok [] := by
  unfold dt_main
  simp [h1, h2, h3, h4, h5, h6]

/-- Witness for C9 at a concrete world whose downstream head carries the most
recent downstream tag. -/
theorem already_tagged_head_is_noop_witness :
    dt_main
      ⟨fun s =>
          if s = "origin/stable/wallaby" then some "aaa"
          else if s = "stackhpc/stackhpc/wallaby" then some "bbb"
          else if s = "stackhpc/1.0.1" then some "bbb"
          else none,
        fun _ _ => some "mbase", fun _ => some "1.0", ["stackhpc/1.0.1"]⟩
      "wallaby" "origin" "stackhpc" "stackhpc/" = .ok [] :=
  already_tagged_head_is_noop
    ⟨fun s =>
        if s = "origin/stable/wallaby" then some "aaa"
        else if s = "stackhpc/stackhpc/wallaby" then some "bbb"
        else if s = "stackhpc/1.0.1" then some "bbb"
        else none,
      fun _ _ => some "mbase", fun _ => some "1.0", ["stackhpc/1.0.1"]⟩
    "wallaby" "origin" "stackhpc" "stackhpc/"
    "aaa" "bbb" "mbase" "1.0" "stackhpc/1.0.1"
    (by decide) (by decide) rfl rfl
    (by
      simp only [most_recent_downstream_tag]
      rw [show (((["stackhpc/1.0.1"] : List String).filter
            (fun t => pyStartsWith t (("stackhpc/" ++ "1.0") ++ "."))).filter
            (fun t => patchPattern ("stackhpc/" ++ "1.0") t)) = ["stackhpc/1.0.1"] from by decide,
          List.mergeSort_singleton]
      decide)
    (by decide)

/-
Claim C3: the change_id field of each parsed record.
-/

theorem pyStartsWith_head_eq (l p : String) (c : Char) (h : pyStartsWith l p = true)
    (hp : p.data.head? = some c) : l.data.head? = some c := by
  rw [pyStartsWith] at h
  have h' : l.data.take p.data.length = p.data := by simpa using h
  cases hd : l.data with
  | nil =>
    rw [hd] at h'
    simp only [List.take_nil] at h'
    rw [← h'] at hp
    simp at hp
  | cons a as =>
    cases hn : p.data.length with
    | zero =>
      rw [List.length_eq_zero] at hn
      rw [hn] at hp
      simp at hp
    | succ n =>
      rw [hd, hn, List.take_succ_cons] at h'
      rw [← h'] at hp
      simp only [List.head?_cons, Option.some.injEq] at hp
      simp [hp]

theorem processLine_body (st : PState) (line : String)
    (h : pyStartsWith line COMMIT_ID = false) :
    processLine st line =
      (entryStep ⟨st.title, st.change_id, st.bot⟩ line).map
        (fun acc => ⟨st.sha1, acc.title, acc.change_id, acc.bot, st.commits⟩) := by
  unfold processLine entryStep
  rw [h]
  simp only [Bool.false_eq_true, if_false]
  by_cases ha : pyStartsWith line AUTHOR
  · rw [if_pos ha, if_pos ha]
    cases (pySplit line)[1]? <;> rfl
  · rw [if_neg ha, if_neg ha]
    by_cases hc : pyStartsWith line CHANGE_ID
    · rw [if_pos hc, if_pos hc]
      rfl
    · rw [if_neg hc, if_neg hc]
      by_cases ht : (pyStartsWith line TITLE && pyFalsy st.title) = true
      · rw [if_pos ht, if_pos ht]
        rfl
      · rw [if_neg ht, if_neg ht]
        rfl

theorem foldlM_processLine_body (body : List String) :
    ∀ (st : PState), (∀ l ∈ body, pyStartsWith l COMMIT_ID = false) →
      body.foldlM processLine st =
        (body.foldlM entryStep ⟨st.title, st.change_id, st.bot⟩).map
          (fun acc => ⟨st.sha1, acc.title, acc.change_id, acc.bot, st.commits⟩) := by
  induction body with
  | nil =>
    intro st h
    rfl
  | cons l ls ih =>
    intro st h
    have hl : pyStartsWith l COMMIT_ID = false := h l (List.mem_cons_self l ls)
    rw [List.foldlM_cons, List.foldlM_cons, processLine_body st l hl]
    cases he : entryStep ⟨st.title, st.change_id, st.bot⟩ l with
    | none => rfl
    | some acc =>
      simp only [Option.map_some', Option.some_bind]
      have hrest := ih ⟨st.sha1, acc.title, acc.change_id, acc.bot, st.commits⟩
        (fun x hx => h x (List.mem_cons_of_mem _ hx))
      simpa using hrest

theorem entryStep_keeps_change_id (acc0 acc1 : EntryAcc) (l : String)
    (hc : pyStartsWith l CHANGE_ID = false)
    (h : entryStep acc0 l = some acc1) : acc1.change_id = acc0.change_id := by
  unfold entryStep at h
  rw [hc] at h
  simp only [Bool.false_eq_true, if_false] at h
  by_cases ha : pyStartsWith l AUTHOR
  · rw [if_pos ha] at h
    cases ht : (pySplit l)[1]? with
    | none =>
      rw [ht] at h
      cases h
    | some tok =>
      rw [ht] at h
      cases h
      rfl
  · rw [if_neg ha] at h
    by_cases htl : (pyStartsWith l TITLE && pyFalsy acc0.title) = true
    · rw [if_pos htl] at h
      cases h
      rfl
    · rw [if_neg htl] at h
      cases h
      rfl

theorem entryStep_sets_change_id (acc0 acc1 : EntryAcc) (l : String)
    (hc : pyStartsWith l CHANGE_ID = true)
    (h : entryStep acc0 l = some acc1) :
    acc1.change_id = some ("I" ++ pyDrop l (pyLen CHANGE_ID)) := by
  have ha : pyStartsWith l AUTHOR = false := by
    by_contra hh
    rw [Bool.not_eq_false] at hh
    have h1 := pyStartsWith_head_eq l CHANGE_ID ' ' hc (by decide)
    have h2 := pyStartsWith_head_eq l AUTHOR 'A' hh (by decide)
    rw [h1] at h2
    simp at h2
  unfold entryStep at h
  rw [ha, hc] at h
  simp only [Bool.false_eq_true, if_false, if_true] at h
  cases h
  rfl

theorem foldlM_entryStep_change_id (body : List String) :
    ∀ (acc0 acc : EntryAcc), body.foldlM entryStep acc0 = some acc →
      (acc.change_id = acc0.change_id ∧ ∀ l ∈ body, pyStartsWith l CHANGE_ID = false) ∨
      (∃ l ∈ body, pyStartsWith l CHANGE_ID = true ∧
        acc.change_id = some ("I" ++ pyDrop l (pyLen CHANGE_ID))) := by
  induction body with
  | nil =>
    intro acc0 acc h
    replace h : acc0 = acc := by simpa using h
    subst h
    exact Or.inl ⟨rfl, by simp⟩
  | cons l ls ih =>
    intro acc0 acc h
    rw [List.foldlM_cons] at h
    cases he : entryStep acc0 l with
    | none =>
      rw [he] at h
      cases h
    | some acc1 =>
      rw [he] at h
      replace h : ls.foldlM entryStep acc1 = some acc := h
      by_cases hc : pyStartsWith l CHANGE_ID
      · rcases ih acc1 acc h with ⟨heq, hall⟩ | ⟨l', hl', hcl', hv⟩
        · exact Or.inr ⟨l, List.mem_cons_self l ls, hc,
            by rw [heq, entryStep_sets_change_id acc0 acc1 l hc he]⟩
        · exact Or.inr ⟨l', List.mem_cons_of_mem _ hl', hcl', hv⟩
      · rw [Bool.not_eq_true] at hc
        rcases ih acc1 acc h with ⟨heq, hall⟩ | ⟨l', hl', hcl', hv⟩
        · refine Or.inl ⟨?_, ?_⟩
          · rw [heq, entryStep_keeps_change_id acc0 acc1 l hc he]
          · intro x hx
            rcases List.mem_cons.mp hx with rfl | hx'
            · exact hc
            · exact hall x hx'
        · exact Or.inr ⟨l', List.mem_cons_of_mem _ hl', hcl', hv⟩

theorem parseEntry_change_id (cl : String) (body : List String) (r : Commit)
    (hcl : pyStartsWith cl COMMIT_ID = true)
    (h : parseEntry (cl :: body) = some r) :
    (r.change_id.isSome ↔ ∃ l ∈ cl :: body, pyStartsWith l CHANGE_ID = true) ∧
    (∀ cid, r.change_id = some cid →
      ∃ l ∈ cl :: body, pyStartsWith l CHANGE_ID = true ∧
        cid = "I" ++ pyDrop l (pyLen CHANGE_ID)) := by
  have hclc : pyStartsWith cl CHANGE_ID = false := by
    by_contra hh
    rw [Bool.not_eq_false] at hh
    have h1 := pyStartsWith_head_eq cl COMMIT_ID 'c' hcl (by decide)
    have h2 := pyStartsWith_head_eq cl CHANGE_ID ' ' hh (by decide)
    rw [h1] at h2
    simp at h2
  simp only [parseEntry] at h
  cases ht : (pySplit cl)[1]? with
  | none =>
    rw [ht] at h
    cases h
  | some tok =>
    rw [ht] at h
    cases ha : body.foldlM entryStep ⟨none, none, false⟩ with
    | none =>
      rw [ha] at h
      cases h
    | some acc =>
      rw [ha] at h
      replace h : (⟨tok, acc.title, acc.change_id, acc.bot⟩ : Commit) = r := by
        simpa using h
      have hr : r.change_id = acc.change_id := by rw [← h]
      rcases foldlM_entryStep_change_id body ⟨none, none, false⟩ acc ha with
        ⟨heq, hall⟩ | ⟨l', hl', hcl', hv⟩
      · constructor
        · rw [hr, heq]
          constructor
          · intro hh
            simp at hh
          · rintro ⟨l, hl, hc⟩
            rcases List.mem_cons.mp hl with rfl | hl2
            · rw [hclc] at hc
              cases hc
            · rw [hall l hl2] at hc
              cases hc
        · intro cid hcid
          rw [hr, heq] at hcid
          cases hcid
      · constructor
        · rw [hr, hv]
          constructor
          · intro _
            exact ⟨l', List.mem_cons_of_mem _ hl', hcl'⟩
          · intro _
            rfl
        · intro cid hcid
          rw [hr, hv] at hcid
          replace hcid : ("I" ++ pyDrop l' (pyLen CHANGE_ID)) = cid := by
            simpa using hcid
          exact ⟨l', List.mem_cons_of_mem _ hl', hcl', hcid.symm⟩

theorem parse_commit_led (n : Nat) :
    ∀ (lines : List String), lines.length ≤ n →
      (lines = [] ∨ ∃ l ls, lines = l :: ls ∧ pyStartsWith l COMMIT_ID = true) →
      ∀ (st : PState),
        (lines.foldlM processLine st).map flush =
          ((splitEntries lines).mapM parseEntry).map (fun recs => flush st ++ recs) := by
  induction n with
  | zero =>
    intro lines hlen _ st
    have hnil : lines = [] := List.length_eq_zero.mp (Nat.le_zero.mp hlen)
    subst hnil
    have hse : splitEntries ([] : List String) = [] := by simp [splitEntries]
    rw [hse, List.mapM_nil]
    simp
  | succ n ih =>
    intro lines hlen hshape st
    rcases hshape with rfl | ⟨l, ls, rfl, hl⟩
    · have hse : splitEntries ([] : List String) = [] := by simp [splitEntries]
      rw [hse, List.mapM_nil]
      simp
    · have hpl : processLine st l =
          (match (pySplit l)[1]? with
            | some tok => some ⟨some tok, none, none, false, flush st⟩
            | none => none) := by
        unfold processLine
        rw [hl, if_pos rfl]
      have hsplitE : splitEntries (l :: ls) =
          (l :: ls.takeWhile (fun x => !pyStartsWith x COMMIT_ID)) ::
            splitEntries (ls.dropWhile (fun x => !pyStartsWith x COMMIT_ID)) := by
        simp [splitEntries, hl]
      have hbodyall : ∀ x ∈ ls.takeWhile (fun x => !pyStartsWith x COMMIT_ID),
          pyStartsWith x COMMIT_ID = false := by
        intro x hx
        have := List.mem_takeWhile_imp hx
        simpa using this
      cases htok : (pySplit l)[1]? with
      | none =>
        have hpl2 : processLine st l = none := by rw [hpl, htok]
        have hpe : parseEntry
            (l :: ls.takeWhile (fun x => !pyStartsWith x COMMIT_ID)) = none := by
          simp only [parseEntry, htok]
          rfl
        rw [hsplitE, List.foldlM_cons, hpl2, List.mapM_cons, hpe]
        rfl
      | some tok =>
        have hpl2 : processLine st l = some ⟨some tok, none, none, false, flush st⟩ := by
          rw [hpl, htok]
        have hdw : ls.takeWhile (fun x => !pyStartsWith x COMMIT_ID) ++
            ls.dropWhile (fun x => !pyStartsWith x COMMIT_ID) = ls :=
          List.takeWhile_append_dropWhile (fun x => !pyStartsWith x COMMIT_ID) ls
        have hbody2 : (ls.takeWhile (fun x => !pyStartsWith x COMMIT_ID)).foldlM processLine
              (⟨some tok, none, none, false, flush st⟩ : PState) =
            ((ls.takeWhile (fun x => !pyStartsWith x COMMIT_ID)).foldlM entryStep
              ⟨none, none, false⟩).map
              (fun acc => ⟨some tok, acc.title, acc.change_id, acc.bot, flush st⟩) :=
          foldlM_processLine_body _ _ hbodyall
        rw [hsplitE, List.foldlM_cons, hpl2]
        show Option.map flush
            (List.foldlM processLine
              (⟨some tok, none, none, false, flush st⟩ : PState) ls) = _
        conv_lhs => rw [← hdw]
        rw [List.foldlM_append, hbody2]
        cases hacc : (ls.takeWhile (fun x => !pyStartsWith x COMMIT_ID)).foldlM entryStep
            (⟨none, none, false⟩ : EntryAcc) with
        | none =>
          have hpe : parseEntry
              (l :: ls.takeWhile (fun x => !pyStartsWith x COMMIT_ID)) = none := by
            simp only [parseEntry, htok, hacc]
            rfl
          rw [List.mapM_cons, hpe]
          rfl
        | some acc =>
          have hrs : (ls.dropWhile (fun x => !pyStartsWith x COMMIT_ID)).length ≤ n := by
            have h1 := (@List.dropWhile_sublist String ls
              (fun x => !pyStartsWith x COMMIT_ID)).length_le
            have h2 : ls.length + 1 ≤ n + 1 := by simpa using hlen
            omega
          have hshape2 : (ls.dropWhile (fun x => !pyStartsWith x COMMIT_ID)) = [] ∨
              ∃ r rs, (ls.dropWhile (fun x => !pyStartsWith x COMMIT_ID)) = r :: rs ∧
                pyStartsWith r COMMIT_ID = true := by
            cases hrest : ls.dropWhile (fun x => !pyStartsWith x COMMIT_ID) with
            | nil => exact Or.inl rfl
            | cons r rs =>
              refine Or.inr ⟨r, rs, rfl, ?_⟩
              have hh := List.head?_dropWhile_not (fun x => !pyStartsWith x COMMIT_ID) ls
              rw [hrest] at hh
              simpa using hh
          have hpe : parseEntry
              (l :: ls.takeWhile (fun x => !pyStartsWith x COMMIT_ID)) =
              some ⟨tok, acc.title, acc.change_id, acc.bot⟩ := by
            simp only [parseEntry, htok, hacc]
            rfl
          show Option.map flush
              (List.foldlM processLine
                (⟨some tok, acc.title, acc.change_id, acc.bot, flush st⟩ : PState)
                (ls.dropWhile (fun x => !pyStartsWith x COMMIT_ID))) = _
          rw [ih _ hrs hshape2 ⟨some tok, acc.title, acc.change_id, acc.bot, flush st⟩,
            List.mapM_cons, hpe]
          cases hmm : (splitEntries
              (ls.dropWhile (fun x => !pyStartsWith x COMMIT_ID))).mapM parseEntry with
          | none => rfl
          | some rs =>
            simp [flush, List.append_assoc]

theorem splitEntries_shape (n : Nat) :
    ∀ lines : List String, lines.length ≤ n → ∀ e ∈ splitEntries lines,
      ∃ cl body, e = cl :: body ∧ pyStartsWith cl COMMIT_ID = true := by
  induction n with
  | zero =>
    intro lines hlen e he
    have hnil : lines = [] := List.length_eq_zero.mp (Nat.le_zero.mp hlen)
    subst hnil
    simp [splitEntries] at he
  | succ n ih =>
    intro lines hlen e he
    cases lines with
    | nil => simp [splitEntries] at he
    | cons l ls =>
      by_cases hl : pyStartsWith l COMMIT_ID
      · rw [show splitEntries (l :: ls) =
            (l :: ls.takeWhile (fun x => !pyStartsWith x COMMIT_ID)) ::
              splitEntries (ls.dropWhile (fun x => !pyStartsWith x COMMIT_ID)) from by
            simp [splitEntries, hl]] at he
        rcases List.mem_cons.mp he with rfl | he'
        · exact ⟨l, _, rfl, hl⟩
        · refine ih _ ?_ _ he'
          have h1 := (@List.dropWhile_sublist String ls
            (fun x => !pyStartsWith x COMMIT_ID)).length_le
          have h2 : ls.length + 1 ≤ n + 1 := by simpa using hlen
          omega
      · have hlf : pyStartsWith l COMMIT_ID = false := by simpa using hl
        rw [show splitEntries (l :: ls) = splitEntries ls from by
          simp [splitEntries, hlf]] at he
        refine ih _ ?_ _ he
        have h2 : ls.length + 1 ≤ n + 1 := by simpa using hlen
        omega

theorem parseLog_aux (lines : List String) :
    ∀ (st : PState), st.sha1 = none →
      ∀ out, (lines.foldlM processLine st).map flush = some out →
        ∃ recs, (splitEntries lines).mapM parseEntry = some recs ∧
          out = st.commits ++ recs := by
  induction lines with
  | nil =>
    intro st hsha out hout
    replace hout : flush st = out := by simpa using hout
    refine ⟨[], ?_, ?_⟩
    · have hse : splitEntries ([] : List String) = [] := by simp [splitEntries]
      rw [hse, List.mapM_nil]
      rfl
    · rw [← hout]
      unfold flush
      rw [hsha]
      simp
  | cons l ls ih =>
    intro st hsha out hout
    by_cases hl : pyStartsWith l COMMIT_ID
    · have heq := parse_commit_led (l :: ls).length (l :: ls) (Nat.le_refl _)
        (Or.inr ⟨l, ls, rfl, hl⟩) st
      rw [heq] at hout
      cases hm : (splitEntries (l :: ls)).mapM parseEntry with
      | none =>
        rw [hm] at hout
        cases hout
      | some recs =>
        rw [hm] at hout
        replace hout : flush st ++ recs = out := by simpa using hout
        refine ⟨recs, rfl, ?_⟩
        rw [← hout]
        unfold flush
        rw [hsha]
    · have hlf : pyStartsWith l COMMIT_ID = false := by simpa using hl
      rw [List.foldlM_cons] at hout
      cases hpl : processLine st l with
      | none =>
        rw [hpl] at hout
        cases hout
      | some st1 =>
        rw [hpl] at hout
        replace hout : (ls.foldlM processLine st1).map flush = some out := hout
        have hb := processLine_body st l hlf
        rw [hpl] at hb
        cases he : entryStep ⟨st.title, st.change_id, st.bot⟩ l with
        | none =>
          rw [he] at hb
          cases hb
        | some acc =>
          rw [he] at hb
          replace hb : (⟨st.sha1, acc.title, acc.change_id, acc.bot, st.commits⟩ : PState) =
              st1 := by
            simpa using hb.symm
          subst hb
          obtain ⟨recs, hm, hout2⟩ :=
            ih ⟨st.sha1, acc.title, acc.change_id, acc.bot, st.commits⟩ hsha out hout
          refine ⟨recs, ?_, hout2⟩
          rw [show splitEntries (l :: ls) = splitEntries ls from by
            simp [splitEntries, hlf]]
          exact hm

theorem parseLog_entries (lines : List String) (commits : List Commit)
    (h : parseLog lines = some commits) :
    (splitEntries lines).mapM parseEntry = some commits := by
  obtain ⟨recs, hm, hout⟩ := parseLog_aux lines ⟨none, none, none, false, []⟩ rfl commits h
  replace hout : commits = recs := by simpa using hout
  rw [hm, hout]

theorem mapM_option_forall₂ {α β : Type} (f : α → Option β) :
    ∀ (l : List α) (l' : List β), l.mapM f = some l' →
      List.Forall₂ (fun a b => f a = some b) l l' := by
  intro l
  induction l with
  | nil =>
    intro l' h
    replace h : some ([] : List β) = some l' := h
    cases h
    exact List.Forall₂.nil
  | cons a as ih =>
    intro l' h
    rw [List.mapM_cons] at h
    cases hfa : f a with
    | none =>
      rw [hfa] at h
      cases h
    | some b =>
      rw [hfa] at h
      cases hmm : as.mapM f with
      | none =>
        rw [hmm] at h
        replace h : (none : Option (List β)) = some l' := h
        cases h
      | some bs =>
        rw [hmm] at h
        replace h : some (b :: bs) = some l' := h
        cases h
        exact List.Forall₂.cons hfa (ih bs hmm)

/-- C3: for every record produced by parsing the log difference, the change_id
field is non-None exactly when the record's log entry contains a line beginning
with the Change-Id marker, and its value is then the character I followed by
the remainder of such a line after the marker. -/
theorem change_id_parsed_iff (lines : List String) (commits : List Commit)
    (h : parseLog lines = some commits) :
    List.Forall₂
      (fun entry r =>
        (r.change_id.isSome ↔ ∃ l ∈ entry, pyStartsWith l CHANGE_ID = true) ∧
        ∀ cid, r.change_id = some cid →
          ∃ l ∈ entry, pyStartsWith l CHANGE_ID = true ∧
            cid = "I" ++ pyDrop l (pyLen CHANGE_ID))
      (splitEntries lines) commits := by
  have hm := parseLog_entries lines commits h
  have hf := mapM_option_forall₂ parseEntry (splitEntries lines) commits hm
  have hshape := splitEntries_shape lines.length lines (Nat.le_refl _)
  clear h hm
  generalize hE : splitEntries lines = E at hf hshape ⊢
  clear hE
  revert hshape
  induction hf with
  | nil =>
    intro _
    exact List.Forall₂.nil
  | @cons e r es rs h1 h2 ih =>
    intro hshape
    obtain ⟨cl, body, rfl, hcl⟩ := hshape _ (List.mem_cons_self _ _)
    exact List.Forall₂.cons (parseEntry_change_id cl body r hcl h1)
      (ih (fun x hx => hshape x (List.mem_cons_of_mem _ hx)))

/-- Witness for C3 at a concrete log: one entry whose Change-Id line yields the
change_id field. -/
theorem change_id_parsed_iff_witness :
    List.Forall₂
      (fun (entry : List String) (r : Commit) =>
        (r.change_id.isSome ↔ ∃ l ∈ entry, pyStartsWith l CHANGE_ID = true) ∧
        ∀ cid, r.change_id = some cid →
          ∃ l ∈ entry, pyStartsWith l CHANGE_ID = true ∧
            cid = "I" ++ pyDrop l (pyLen CHANGE_ID))
      (splitEntries ["commit a1b2 c3d4", "    T", "    Change-Id: Ix"])
      [⟨"a1b2", some "T", some "Ix", false⟩] :=
  change_id_parsed_iff ["commit a1b2 c3d4", "    T", "    Change-Id: Ix"]
    [⟨"a1b2", some "T", some "Ix", false⟩] (by decide)

end NamingThings
